import Mathlib

/-!
Verification of the groove boolean-query rewriting engine against its
specification.  The Go sources under scrutiny are the `eval` package
(`eval/evaluator.go`), the `formulation` package (`ObjectiveFormulator`),
the `rewrite` package (`OracleQueryChainCandidateSelector`), and the
`learning` package (`QueryChain.Execute`, `getRanking`).  Pure functions are
translated as Lean functions; Go float64 score values are modelled as
rationals; fallible calls return `Except`; external collaborators
(statistics source, transformation strategies, the score-file parser) are
passed in as explicit function parameters.
-/

namespace Groove

/-- Query tree: modelled from the spec (the `cqr` query-representation
package is external to the sources under src/).  A node is either an atom
(keyword terms and a target field) or a boolean operator node with an
ordered sequence of children. -/
inductive CQR where
  | atom (terms : List String) (field : String)
  | boolean (op : String) (children : List CQR)

instance : Inhabited CQR := ⟨.boolean ("") []⟩

/-- Relevance judgment for one document of one topic
(trecresults.Qrel: document id and integer relevance grade). -/
structure Qrel where
  DocId : String
  Score : Int
deriving DecidableEq

/-- Judgments of one topic (trecresults.Qrels, iterated as a collection of
judgments). -/
abbrev TrecQrels := List Qrel

/-- Judgments keyed by topic (trecresults.QrelsFile).  A missing topic
yields the Go map zero value, modelled by returning the empty list. -/
structure QrelsFile where
  Qrels : String → TrecQrels

/-- Retrieved result list; only the document identifiers matter to the
evaluation code (trecresults.ResultList). -/
abbrev ResultList := List String

/-- Query together with its name and topic (groove.PipelineQuery). -/
structure PipelineQuery where
  Name : String
  Topic : String
  Query : CQR

instance : Inhabited PipelineQuery := ⟨⟨"", "", default⟩⟩

/-- Constructor groove.NewPipelineQuery. -/
def NewPipelineQuery (name topic : String) (query : CQR) : PipelineQuery :=
  ⟨name, topic, query⟩

/-- Modelled from the spec: a transformed query holds the current pipeline
query plus its lineage of prior pipeline queries; appending a step
produces a new value whose chain is the prior chain plus the step (the
rewrite-package file defining TransformedQuery is not under src/). -/
structure TransformedQuery where
  PipelineQuery : Groove.PipelineQuery
  QueryChain : List Groove.PipelineQuery

instance : Inhabited TransformedQuery := ⟨⟨default, []⟩⟩

/-- Constructor rewrite.NewTransformedQuery: fresh lineage. -/
def NewTransformedQuery (q : PipelineQuery) : TransformedQuery :=
  ⟨q, []⟩

/-- Append a step to a transformed query: the new query becomes current
and the previous current query joins the chain. -/
def TransformedQuery.Append (tq : TransformedQuery) (q : Groove.PipelineQuery) : TransformedQuery :=
  ⟨q, tq.QueryChain ++ [tq.PipelineQuery]⟩

/-- Evaluator (eval.Evaluator interface): a named scoring function over a
result list and the judgments of one topic. -/
structure Evaluator where
  Name : String
  Score : ResultList → TrecQrels → ℚ

/-- Score map produced by eval.Evaluate (Go map String to float64),
modelled as a partial function from names to values. -/
abbrev ScoreMap := String → Option ℚ

/-- Empty score map. -/
def emptyScores : ScoreMap := fun _ => none

/-- Map insertion (Go map assignment: later writes to the same key
overwrite earlier ones). -/
def insertScore (m : ScoreMap) (k : String) (v : ℚ) : ScoreMap :=
  fun n => if n = k then some v else m n

/-- Read a score map the way Go map indexing does: a missing key yields
the zero value. -/
def readScore (m : ScoreMap) (k : String) : ℚ :=
  (m k).getD 0

/-- Embedding of eval.Evaluate (eval/evaluator.go): restrict the
judgments to the topic, then score with every evaluator; when no
documents were retrieved, score each evaluator with an explicit empty
result list instead. -/
def Evaluate (evaluators : List Evaluator) (results : ResultList)
    (qrels : QrelsFile) (topic : String) : ScoreMap :=
  let q := qrels.Qrels topic
  if results.length > 0 then
    evaluators.foldl (fun scores e => insertScore scores e.Name (e.Score results q)) emptyScores
  else
    evaluators.foldl (fun scores e => insertScore scores e.Name (e.Score ([] : ResultList) q)) emptyScores

/-- Judged relevant: some judgment for the document has a positive grade.
Modelled from the spec: a global relevance-grade threshold decides which
grades count as relevant; grade 0 is never relevant. -/
def isRelDoc (q : TrecQrels) (d : String) : Bool :=
  q.any (fun r => r.DocId = d && r.Score > 0)

/-- Modelled from the spec: the NumRet metric counts retrieved documents
(its implementation file is not under src/). -/
def NumRet : Evaluator :=
  { Name := "num_ret", Score := fun results _ => (results.length : ℚ) }

/-- Modelled from the spec: the NumRelRet metric counts retrieved
documents that are judged relevant (its implementation file is not under
src/). -/
def NumRelRet : Evaluator :=
  { Name := "num_rel_ret",
    Score := fun results q => ((results.filter (fun d => isRelDoc q d)).length : ℚ) }

/-- Serialisation capability of a saved datum
(formulation.DataMarshaler interface): Marshal produces the bytes to
write to disk — modelled as naturals — or an error. -/
structure DataMarshaler where
  Marshal : Unit → Except String (List Nat)

/-- Datum saved by the formulation process together with how to write it
to disk (formulation.Data). -/
structure Data where
  Name : String
  Value : DataMarshaler

/-- Extra data that may output from the formulation process
(formulation.SupplementalData): a name and its saved data entries. -/
structure SupplementalData where
  Name : String
  Data : List Groove.Data

/-- Configuration of the objective formulator
(formulation.ObjectiveFormulator); only the judgments field is read by
the part of Formulate embedded here, the remaining fields are wiring to
collaborators outside src/. -/
structure ObjectiveFormulator where
  qrels : TrecQrels

/-- Per-judgment scan at the start of ObjectiveFormulator.Formulate:
collect the parsed document ids of judgments with positive grade.  The
integer parser strconv.Atoi belongs to the Go standard library and is
passed in as `atoi`; the Go code panics on a malformed id, modelled as an
error result. -/
def relevantDocIds (atoi : String → Option Int) : TrecQrels → Except String (List Int)
  | [] => .ok []
  | rel :: rest =>
    if rel.Score > 0 then
      match atoi rel.DocId with
      | none => .error ("panic: strconv.Atoi failed on a document id")
      | some v => (relevantDocIds atoi rest).map (fun docs => v :: docs)
    else relevantDocIds atoi rest

/-- Embedding of ObjectiveFormulator.Formulate: identify the relevant
studies from the judgments, reject when the guard `len(docs) <= 50`
fires, and otherwise run the remainder of the pipeline.  The remainder
(fetchDocuments, the splitter, the term analyser, derive and
post-processing) lives outside src/ and is passed in as `pipelineRest`. -/
def ObjectiveFormulator.Formulate (atoi : String → Option Int)
    (pipelineRest : List Int → Except String (List CQR × List SupplementalData))
    (o : ObjectiveFormulator) : Except String (List CQR × List SupplementalData) :=
  match relevantDocIds atoi o.qrels with
  | .error e => .error e
  | .ok docs =>
    if docs.length ≤ 50 then
      .error ("not enough relevant studies (minimmum 50)")
    else
      pipelineRest docs

/-- Subtree cache threaded through logical-tree construction
(the Go map from uint64 content hash to combinator.LogicalTreeNode). -/
abbrev Seen := List (Nat × ResultList)

/-- Resolution of a pipeline query to its retrieved document list:
combinator.NewLogicalTree followed by tree.Documents().Results.  The
combinator package and the statistics source are external to src/, so the
composite is passed in as a function that threads the cache and can fail
with a retrieval error. -/
abbrev Resolver := PipelineQuery → Seen → Except String (ResultList × Seen)

/-- Candidate query produced by applying a transformation (only its Query
field is read by Select). -/
structure AppliedQuery where
  Query : CQR

/-- Transformation strategy (rewrite.Transformation interface: Apply and
Name). -/
structure Transformation where
  Name : String
  Apply : CQR → Except String (List AppliedQuery)

/-- State of the oracle grid-search candidate selector
(rewrite.OracleQueryChainCandidateSelector).  Score bookkeeping fields
are Go float64 values modelled as rationals; the statistics source field
is modelled by the Resolver argument of Select; the judgments file
travels in the state as in the source. -/
structure OracleQueryChainCandidateSelector where
  depth : Nat
  minResults : ℚ
  bestRelRet : ℚ
  prevRelRet : ℚ
  bestRet : ℚ
  prevRet : ℚ
  qrels : QrelsFile
  seen : Option Seen

/-- Constructor rewrite.NewOracleQueryChainCandidateSelector: both best
scores start at -1, every other bookkeeping field at its zero value, and
the cache map nil. -/
def NewOracleQueryChainCandidateSelector (qrels : QrelsFile) : OracleQueryChainCandidateSelector :=
  { depth := 0, minResults := 0, bestRelRet := -1, prevRelRet := 0,
    bestRet := -1, prevRet := 0, qrels := qrels, seen := none }

/-- Embedding of OracleQueryChainCandidateSelector.StoppingCriteria,
kept exactly as written in the source: the first convergence conjunct
compares bestRelRet against itself. -/
def OracleQueryChainCandidateSelector.StoppingCriteria
    (oc : OracleQueryChainCandidateSelector) : Bool :=
  if decide (oc.depth ≥ 5) ||
      (decide (oc.bestRelRet = oc.bestRelRet) && decide (oc.bestRet = oc.prevRet)) then
    true
  else
    false

/-- Inner loop of Select over the candidates produced by one
transformation.  Each candidate is resolved (an error aborts Select with
that error), scored through eval.Evaluate, and accepted as the new
running best when it retrieves a relevant document, does not lose
relevant documents, and does not grow the result set.  The source also
computes recall, precision and NumRel in the same Evaluate call; those
three values feed only a log statement and their implementations are
outside src/. -/
def selectApplied (resolve : Resolver) (query : TransformedQuery)
    (oc : OracleQueryChainCandidateSelector) (bestRelRet bestRet : ℚ) :
    List AppliedQuery →
      TransformedQuery × OracleQueryChainCandidateSelector × ℚ × ℚ × Option String
  | [] => (query, oc, bestRelRet, bestRet, none)
  | applied :: rest =>
    let nq := NewPipelineQuery query.PipelineQuery.Name query.PipelineQuery.Topic applied.Query
    match resolve nq (oc.seen.getD []) with
    | .error e => (query, oc, bestRelRet, bestRet, some e)
    | .ok (results, seen) =>
      let oc := { oc with seen := some seen }
      let evaluation := Evaluate [NumRet, NumRelRet] results oc.qrels query.PipelineQuery.Topic
      let numRelRet := readScore evaluation NumRelRet.Name
      let numRet := readScore evaluation NumRet.Name
      if numRelRet > 0 ∧ numRelRet ≥ bestRelRet ∧ numRet ≤ bestRet then
        let oc := { oc with bestRelRet := numRelRet, bestRet := numRet }
        let transformed :=
          NewPipelineQuery query.PipelineQuery.Name query.PipelineQuery.Topic applied.Query
        selectApplied resolve (query.Append transformed) oc numRelRet numRet rest
      else
        selectApplied resolve query oc bestRelRet bestRet rest

/-- Outer loop of Select over the transformation strategies: apply each
strategy to the current query (an Apply error aborts with the zero-value
transformed query) and feed its candidates to the inner loop, carrying
the running best values across strategies. -/
def selectTransformations (resolve : Resolver) (query : TransformedQuery)
    (oc : OracleQueryChainCandidateSelector) (bestRelRet bestRet : ℚ) :
    List Transformation → TransformedQuery × OracleQueryChainCandidateSelector × Option String
  | [] => (query, oc, none)
  | t :: rest =>
    match t.Apply query.PipelineQuery.Query with
    | .error e => (default, oc, some e)
    | .ok queries =>
      match selectApplied resolve query oc bestRelRet bestRet queries with
      | (query', oc', _, _, some e) => (query', oc', some e)
      | (query', oc', b1, b2, none) => selectTransformations resolve query' oc' b1 b2 rest

/-- Embedding of OracleQueryChainCandidateSelector.Select: bump the
depth, remember the previous best scores, initialise the cache map when
nil, seed the baseline when minResults is still zero (evaluating the
unmodified query, with errors returned to the caller), then grid-search
every transformation candidate. -/
def OracleQueryChainCandidateSelector.Select (oc : OracleQueryChainCandidateSelector)
    (resolve : Resolver) (query : TransformedQuery) (transformations : List Transformation) :
    TransformedQuery × OracleQueryChainCandidateSelector × Option String :=
  let oc := { oc with depth := oc.depth + 1, prevRelRet := oc.bestRelRet, prevRet := oc.bestRet }
  let oc := if oc.seen.isNone then { oc with seen := some ([] : Seen) } else oc
  if oc.minResults = 0 then
    match resolve query.PipelineQuery (oc.seen.getD []) with
    | .error e => (query, oc, some e)
    | .ok (results, seen) =>
      let oc := { oc with seen := some seen, minResults := (results.length : ℚ) }
      let evaluation := Evaluate [NumRet, NumRelRet] results oc.qrels query.PipelineQuery.Topic
      let oc := { oc with bestRelRet := readScore evaluation NumRelRet.Name,
                          bestRet := readScore evaluation NumRet.Name }
      selectTransformations resolve query oc oc.bestRelRet oc.bestRet transformations
  else
    selectTransformations resolve query oc oc.bestRelRet oc.bestRet transformations

/-- Modelled from the spec: a candidate query carries the query, its
topic, its rewrite lineage (ordered sequence of prior candidate queries),
the identity of the transformation that produced it, and its feature
values (the learning-package file defining CandidateQuery is not under
src/). -/
inductive CandidateQuery where
  | mk (Query : CQR) (Topic : String) (Chain : List CandidateQuery)
      (TransformationID : Nat) (Features : List (String × ℚ))

/-- Constructor learning.NewCandidateQuery. -/
def NewCandidateQuery (query : CQR) (topic : String) (chain : List CandidateQuery) :
    CandidateQuery :=
  .mk query topic chain 0 []

/-- Zero value of CandidateQuery, as produced by the Go composite
literal with no fields. -/
def CandidateQuery.zero : CandidateQuery :=
  .mk default ("") [] 0 []

/-- Error returned from a candidate selector to the chain loop: either
the recoverable cache-miss signal combinator.ErrCacheMiss or an ordinary
error. -/
inductive ChainErr where
  | cacheMiss
  | failure (msg : String)
deriving DecidableEq

/-- External collaborators of learning.QueryChain.Execute, passed in as
functions: candidate generation (learning.Variations, not under src/)
and the configured candidate selector (Select and StoppingCriteria over
its selector-state type). -/
structure ExecEnv (σ : Type) where
  variations : CandidateQuery → Except String (List CandidateQuery)
  select : σ → CandidateQuery → List CandidateQuery → CandidateQuery × σ × Option ChainErr
  stopping : σ → Bool

/-- Embedding of the loop of learning.QueryChain.Execute, with explicit
fuel because the Go loop has no syntactic bound (`none` means the fuel
ran out).  Each round asks for variations (a generation error is fatal),
stops when the generation is empty, appends the current query to the
candidate list, selects, and terminates with an error only when the
selector returns an error other than combinator.ErrCacheMiss. -/
def ExecuteLoop (env : ExecEnv σ) : Nat → CandidateQuery → σ →
    Option (Except String CandidateQuery)
  | 0, _, _ => none
  | fuel + 1, cq, sel =>
    if env.stopping sel then
      some (.ok cq)
    else
      match env.variations cq with
      | .error e => some (.error e)
      | .ok candidates =>
        if candidates.length = 0 then
          some (.ok cq)
        else
          match env.select sel cq (candidates ++ [cq]) with
          | (_, _, some (.failure e)) => some (.error e)
          | (cq', sel', some .cacheMiss) => ExecuteLoop env fuel cq' sel'
          | (cq', sel', none) => ExecuteLoop env fuel cq' sel'

/-- Embedding of learning.QueryChain.Execute: seed the candidate from the
pipeline query and run the loop from the configured selector state. -/
def QueryChainExecute (env : ExecEnv σ) (fuel : Nat) (q : PipelineQuery) (sel : σ) :
    Option (Except String CandidateQuery) :=
  ExecuteLoop env fuel (NewCandidateQuery q.Query q.Topic []) sel

/-- Score/candidate pair built by getRanking (the unexported ranking
struct). -/
structure Ranking where
  rank : ℚ
  query : CandidateQuery

/-- Line-scanning loop of getRanking: parse each line as a float
(strconv.ParseFloat; a malformed line returns that parse error) and store
the score next to the candidate at the same ordinal in the pre-sized
ranks slice.  A score file longer than the candidate list would make the
Go code panic with an index-out-of-range; that panic is modelled as an
error result. -/
def getRankingLoop (parseFloat : String → Except String ℚ) (candidates : List CandidateQuery) :
    List String → Nat → List Ranking → Except String (List Ranking)
  | [], _, ranks => .ok ranks
  | line :: rest, i, ranks =>
    match parseFloat line with
    | .error e => .error e
    | .ok r =>
      if h : i < candidates.length then
        getRankingLoop parseFloat candidates rest (i + 1)
          (ranks.set i ⟨r, candidates.get ⟨i, h⟩⟩)
      else
        .error ("panic: index out of range")

/-- Embedding of learning.getRanking.  The score file is modelled as the
outcome of ioutil.ReadFile already split into lines; a nil or empty
candidate list short-circuits to the zero-value candidate before the file
is consulted.  After the scan the ranks are sorted by descending score
(sort.Slice with a greater-than comparator; Go leaves the order of equal
scores unspecified, modelled here by a stable sort) and the first entry
is returned. -/
def getRanking (parseFloat : String → Except String ℚ)
    (file : Except String (List String)) (candidates : List CandidateQuery) :
    CandidateQuery × Option String :=
  if candidates.length = 0 then
    (CandidateQuery.zero, none)
  else
    match file with
    | .error e => (CandidateQuery.zero, some e)
    | .ok lines =>
      match getRankingLoop parseFloat candidates lines 0
          (List.replicate candidates.length ⟨0, CandidateQuery.zero⟩) with
      | .error e => (CandidateQuery.zero, some e)
      | .ok ranks =>
        let sorted := ranks.mergeSort (fun a b => decide (b.rank ≤ a.rank))
        if sorted.length = 0 then
          (CandidateQuery.zero, none)
        else
          ((sorted.headD ⟨0, CandidateQuery.zero⟩).query, none)

/-- Frame property of the inner candidate loop: it only touches the best
scores and the cache of the selector state; depth, the previous-iteration
scores, minResults and the judgments pass through unchanged. -/
theorem selectApplied_frame (resolve : Resolver) (l : List AppliedQuery) :
    ∀ (query : TransformedQuery) (oc : OracleQueryChainCandidateSelector) (b1 b2 : ℚ),
      ((selectApplied resolve query oc b1 b2 l).2.1).depth = oc.depth
      ∧ ((selectApplied resolve query oc b1 b2 l).2.1).prevRelRet = oc.prevRelRet
      ∧ ((selectApplied resolve query oc b1 b2 l).2.1).prevRet = oc.prevRet
      ∧ ((selectApplied resolve query oc b1 b2 l).2.1).minResults = oc.minResults
      ∧ ((selectApplied resolve query oc b1 b2 l).2.1).qrels = oc.qrels := by
  induction l with
  | nil =>
    intro query oc b1 b2
    exact ⟨rfl, rfl, rfl, rfl, rfl⟩
  | cons a rest ih =>
    intro query oc b1 b2
    simp only [selectApplied]
    cases h : resolve (NewPipelineQuery query.PipelineQuery.Name query.PipelineQuery.Topic a.Query)
        (oc.seen.getD []) with
    | error e => exact ⟨rfl, rfl, rfl, rfl, rfl⟩
    | ok rs =>
      obtain ⟨results, seen⟩ := rs
      dsimp only
      split
      · exact ih _ _ _ _
      · exact ih _ _ _ _

/-- Frame property of the outer transformation loop: depth, the
previous-iteration scores, minResults and the judgments of the selector
pass through unchanged. -/
theorem selectTransformations_frame (resolve : Resolver) (ts : List Transformation) :
    ∀ (query : TransformedQuery) (oc : OracleQueryChainCandidateSelector) (b1 b2 : ℚ),
      ((selectTransformations resolve query oc b1 b2 ts).2.1).depth = oc.depth
      ∧ ((selectTransformations resolve query oc b1 b2 ts).2.1).prevRelRet = oc.prevRelRet
      ∧ ((selectTransformations resolve query oc b1 b2 ts).2.1).prevRet = oc.prevRet
      ∧ ((selectTransformations resolve query oc b1 b2 ts).2.1).minResults = oc.minResults
      ∧ ((selectTransformations resolve query oc b1 b2 ts).2.1).qrels = oc.qrels := by
  induction ts with
  | nil =>
    intro query oc b1 b2
    exact ⟨rfl, rfl, rfl, rfl, rfl⟩
  | cons t rest ih =>
    intro query oc b1 b2
    simp only [selectTransformations]
    cases hap : t.Apply query.PipelineQuery.Query with
    | error e => exact ⟨rfl, rfl, rfl, rfl, rfl⟩
    | ok queries =>
      dsimp only
      have hsa := selectApplied_frame resolve queries query oc b1 b2
      cases hres : selectApplied resolve query oc b1 b2 queries with
      | mk q' tail =>
        obtain ⟨oc', b1', b2', err⟩ := tail
        rw [hres] at hsa
        cases err with
        | some e => exact hsa
        | none =>
          dsimp only
          have hrest := ih q' oc' b1' b2'
          exact ⟨hrest.1.trans hsa.1, hrest.2.1.trans hsa.2.1, hrest.2.2.1.trans hsa.2.2.1,
            hrest.2.2.2.1.trans hsa.2.2.2.1, hrest.2.2.2.2.trans hsa.2.2.2.2⟩

/-- C8: Select is a pure transition on the selector value, exactly as the
Go value-receiver method is on its copied receiver: the caller's state is
untouched (the embedding of Select is a function of the input value), and
the per-iteration bookkeeping appears in the returned state, whose depth
is the caller's depth plus one and whose previous-best fields record the
caller's best scores — on every path, error or not. -/
theorem select_returns_fresh_bookkeeping (oc : OracleQueryChainCandidateSelector)
    (resolve : Resolver) (query : TransformedQuery) (ts : List Transformation) :
    ((oc.Select resolve query ts).2.1).depth = oc.depth + 1
    ∧ ((oc.Select resolve query ts).2.1).prevRelRet = oc.bestRelRet
    ∧ ((oc.Select resolve query ts).2.1).prevRet = oc.bestRet := by
  unfold OracleQueryChainCandidateSelector.Select
  dsimp only
  split <;> split <;> try split
  all_goals
    first
      | exact ⟨rfl, rfl, rfl⟩
      | exact ⟨(selectTransformations_frame resolve ts _ _ _ _).1,
               (selectTransformations_frame resolve ts _ _ _ _).2.1,
               (selectTransformations_frame resolve ts _ _ _ _).2.2.1⟩

/-- C1: the stopping criterion as coded fires at a state where the claim
requires it not to: depth is below 5 and bestRelRet changed across the
last iteration (5 against a previous 3), yet StoppingCriteria returns
true because its first convergence conjunct compares bestRelRet with
itself, so only bestRet being unchanged matters. -/
theorem stoppingCriteria_fires_despite_relret_change :
    (OracleQueryChainCandidateSelector.StoppingCriteria
        { depth := 1, minResults := 1, bestRelRet := 5, prevRelRet := 3,
          bestRet := 2, prevRet := 2, qrels := ⟨fun _ => []⟩, seen := none } = true)
    ∧ (1 : Nat) < 5 ∧ ((5 : ℚ) ≠ 3) := by
  exact ⟨rfl, by decide, by decide⟩

/-- C3: with exactly 50 relevant judged documents (all with parseable
ids and positive grade) the guard `len(docs) <= 50` fires and Formulate
returns the insufficient-data error even though its own error message
states the minimum to be 50; the claim (and the spec) say 50 must
proceed. -/
theorem formulate_rejects_exactly_fifty_relevant :
    ((relevantDocIds (fun _ => some 1)
        ((List.range 50).map (fun i => ⟨toString i, 1⟩))).map List.length
      = .ok 50)
    ∧ (ObjectiveFormulator.Formulate (fun _ => some 1) (fun _ => .ok ([], []))
        ⟨(List.range 50).map (fun i => ⟨toString i, 1⟩)⟩
      = .error ("not enough relevant studies (minimmum 50)")) := by
  have h : relevantDocIds (fun _ => some 1)
      ((List.range 50).map (fun i => ⟨toString i, 1⟩))
      = .ok (List.replicate 50 1) := by
    rfl
  constructor
  · rw [h]
    rfl
  · unfold ObjectiveFormulator.Formulate
    rw [show (⟨(List.range 50).map (fun i => ⟨toString i, 1⟩)⟩ : ObjectiveFormulator).qrels
          = (List.range 50).map (fun i => ⟨toString i, 1⟩) from rfl, h]
    rfl

/-- C10: for an empty (or nil — both have length zero) candidate list,
getRanking answers the zero-value candidate with a nil error regardless
of the outcome of reading the score file, which it never consults. -/
theorem getRanking_empty_candidates (parseFloat : String → Except String ℚ)
    (file : Except String (List String)) :
    getRanking parseFloat file [] = (CandidateQuery.zero, none) := rfl

/-- Monotonicity of the inner candidate loop: the running best values
only improve (bestRelRet never drops, bestRet never rises), and when the
selector fields agree with the running locals on entry they agree on
exit as well. -/
theorem selectApplied_best_mono (resolve : Resolver) (l : List AppliedQuery) :
    ∀ (query : TransformedQuery) (oc : OracleQueryChainCandidateSelector) (b1 b2 : ℚ),
      (b1 ≤ (selectApplied resolve query oc b1 b2 l).2.2.1
        ∧ (selectApplied resolve query oc b1 b2 l).2.2.2.1 ≤ b2)
      ∧ (oc.bestRelRet = b1 → oc.bestRet = b2 →
          ((selectApplied resolve query oc b1 b2 l).2.1).bestRelRet
            = (selectApplied resolve query oc b1 b2 l).2.2.1
          ∧ ((selectApplied resolve query oc b1 b2 l).2.1).bestRet
            = (selectApplied resolve query oc b1 b2 l).2.2.2.1) := by
  induction l with
  | nil =>
    intro query oc b1 b2
    exact ⟨⟨le_refl _, le_refl _⟩, fun h1 h2 => ⟨h1, h2⟩⟩
  | cons a rest ih =>
    intro query oc b1 b2
    simp only [selectApplied]
    cases h : resolve (NewPipelineQuery query.PipelineQuery.Name query.PipelineQuery.Topic a.Query)
        (oc.seen.getD []) with
    | error e => exact ⟨⟨le_refl _, le_refl _⟩, fun h1 h2 => ⟨h1, h2⟩⟩
    | ok rs =>
      obtain ⟨results, seen⟩ := rs
      dsimp only
      split
      case isTrue hacc =>
        obtain ⟨⟨hle1, hle2⟩, hlink⟩ := ih (query.Append
            (NewPipelineQuery query.PipelineQuery.Name query.PipelineQuery.Topic a.Query))
          { oc with seen := some seen,
                    bestRelRet := readScore (Evaluate [NumRet, NumRelRet] results oc.qrels
                      query.PipelineQuery.Topic) NumRelRet.Name,
                    bestRet := readScore (Evaluate [NumRet, NumRelRet] results oc.qrels
                      query.PipelineQuery.Topic) NumRet.Name }
          (readScore (Evaluate [NumRet, NumRelRet] results oc.qrels
            query.PipelineQuery.Topic) NumRelRet.Name)
          (readScore (Evaluate [NumRet, NumRelRet] results oc.qrels
            query.PipelineQuery.Topic) NumRet.Name)
        exact ⟨⟨le_trans hacc.2.1 hle1, le_trans hle2 hacc.2.2⟩,
          fun _ _ => hlink rfl rfl⟩
      case isFalse hacc =>
        obtain ⟨⟨hle1, hle2⟩, hlink⟩ := ih query { oc with seen := some seen } b1 b2
        exact ⟨⟨hle1, hle2⟩, fun h1 h2 => hlink h1 h2⟩

/-- Monotonicity of the outer transformation loop: starting from a
selector whose best fields agree with the running locals, the best
relevant-retrieved count never drops and the best retrieved count never
rises, on every path including error returns. -/
theorem selectTransformations_best_mono (resolve : Resolver) (ts : List Transformation) :
    ∀ (query : TransformedQuery) (oc : OracleQueryChainCandidateSelector) (b1 b2 : ℚ),
      oc.bestRelRet = b1 → oc.bestRet = b2 →
      b1 ≤ ((selectTransformations resolve query oc b1 b2 ts).2.1).bestRelRet
      ∧ ((selectTransformations resolve query oc b1 b2 ts).2.1).bestRet ≤ b2 := by
  induction ts with
  | nil =>
    intro query oc b1 b2 h1 h2
    exact ⟨le_of_eq h1.symm, le_of_eq h2⟩
  | cons t rest ih =>
    intro query oc b1 b2 h1 h2
    simp only [selectTransformations]
    cases hap : t.Apply query.PipelineQuery.Query with
    | error e => exact ⟨le_of_eq h1.symm, le_of_eq h2⟩
    | ok queries =>
      dsimp only
      have hsa := selectApplied_best_mono resolve queries query oc b1 b2
      cases hres : selectApplied resolve query oc b1 b2 queries with
      | mk q' tail =>
        obtain ⟨oc', b1', b2', err⟩ := tail
        rw [hres] at hsa
        obtain ⟨⟨hle1, hle2⟩, hlink⟩ := hsa
        obtain ⟨hf1, hf2⟩ := hlink h1 h2
        cases err with
        | some e =>
          exact ⟨le_trans hle1 (le_of_eq hf1.symm), le_trans (le_of_eq hf2) hle2⟩
        | none =>
          dsimp only
          obtain ⟨hr1, hr2⟩ := ih q' oc' b1' b2' hf1 hf2
          exact ⟨le_trans hle1 hr1, le_trans hr2 hle2⟩

/-- Statistics source used in the C4 counterexample: every query resolves
to the single document list, leaving the cache unchanged. -/
def c4Resolver : Resolver := fun _ s => .ok (["d"], s)

/-- Seed query used in the C4 counterexample. -/
def c4Seed : TransformedQuery := NewTransformedQuery (NewPipelineQuery ("n") ("t") default)

/-- C4 counterexample: on the very first invocation of Select the
seeding step overwrites the constructor value bestRet = -1 with the
baseline retrieved count (here 1), so bestRet increases across that
invocation — the bookkeeping regresses in the claim's sense. -/
theorem select_seeding_raises_bestRet :
    ¬ ((((NewOracleQueryChainCandidateSelector ⟨fun _ => []⟩).Select
          c4Resolver c4Seed []).2.1).bestRet
        ≤ (NewOracleQueryChainCandidateSelector ⟨fun _ => []⟩).bestRet) := by
  decide

/-- C4 (amended): in every invocation of Select that starts with
minResults different from zero — that is, any invocation after the
baseline has been seeded with a nonempty result set, so the seeding
branch is skipped — bestRelRet is non-decreasing and bestRet is
non-increasing from the caller's state to the returned state. -/
theorem select_best_monotone_after_seeding (oc : OracleQueryChainCandidateSelector)
    (resolve : Resolver) (query : TransformedQuery) (ts : List Transformation)
    (h : oc.minResults ≠ 0) :
    oc.bestRelRet ≤ ((oc.Select resolve query ts).2.1).bestRelRet
    ∧ ((oc.Select resolve query ts).2.1).bestRet ≤ oc.bestRet := by
  unfold OracleQueryChainCandidateSelector.Select
  dsimp only
  split <;>
    first
      | exact absurd (by assumption) h
      | exact selectTransformations_best_mono resolve ts query _ _ _ rfl rfl

/-- Witness for the amended C4 theorem at a concrete post-seeding
state. -/
theorem select_best_monotone_after_seeding_witness :
    ({ depth := 1, minResults := 1, bestRelRet := 0, prevRelRet := 0,
       bestRet := 1, prevRet := 1, qrels := ⟨fun _ => []⟩, seen := some [] }
        : OracleQueryChainCandidateSelector).bestRelRet
      ≤ ((({ depth := 1, minResults := 1, bestRelRet := 0, prevRelRet := 0,
             bestRet := 1, prevRet := 1, qrels := ⟨fun _ => []⟩, seen := some [] }
              : OracleQueryChainCandidateSelector).Select c4Resolver c4Seed []).2.1).bestRelRet
    ∧ ((({ depth := 1, minResults := 1, bestRelRet := 0, prevRelRet := 0,
            bestRet := 1, prevRet := 1, qrels := ⟨fun _ => []⟩, seen := some [] }
             : OracleQueryChainCandidateSelector).Select c4Resolver c4Seed []).2.1).bestRet
      ≤ ({ depth := 1, minResults := 1, bestRelRet := 0, prevRelRet := 0,
           bestRet := 1, prevRet := 1, qrels := ⟨fun _ => []⟩, seen := some [] }
            : OracleQueryChainCandidateSelector).bestRet := by
  exact select_best_monotone_after_seeding _ c4Resolver c4Seed [] (by decide)

/-- C9: in the chain loop of QueryChain.Execute, a selector round that
reports the cache-miss signal does not terminate the loop — the loop
simply continues from the returned candidate and selector state — while
any other non-nil selector error terminates Execute with exactly that
error. -/
theorem execute_continues_on_cache_miss {σ : Type} (env : ExecEnv σ)
    (fuel : Nat) (cq cq' : CandidateQuery) (sel : σ) (sel' : σ)
    (cs : List CandidateQuery) (e : String)
    (hstop : env.stopping sel = false)
    (hvar : env.variations cq = .ok cs)
    (hne : cs.length ≠ 0) :
    (env.select sel cq (cs ++ [cq]) = (cq', sel', some .cacheMiss) →
        ExecuteLoop env (fuel + 1) cq sel = ExecuteLoop env fuel cq' sel')
    ∧ (env.select sel cq (cs ++ [cq]) = (cq', sel', some (.failure e)) →
        ExecuteLoop env (fuel + 1) cq sel = some (.error e)) := by
  constructor <;> intro hsel <;>
    simp [ExecuteLoop, hstop, hvar, hne, hsel]

/-- Concrete chain environment for the C9 witness: one candidate per
generation, a selector that signals a cache miss on its first round and
a hard failure on its second. -/
def cmEnv : ExecEnv Nat :=
  { variations := fun _ => .ok [CandidateQuery.zero],
    select := fun s c _ =>
      (c, s + 1, if s = 0 then some .cacheMiss else some (.failure ("boom"))),
    stopping := fun _ => false }

/-- Witness for the C9 theorem: the cache-miss round continues the loop,
the failing round terminates with the error. -/
theorem execute_continues_on_cache_miss_witness :
    (ExecuteLoop cmEnv 5 CandidateQuery.zero 0 = ExecuteLoop cmEnv 4 CandidateQuery.zero 1)
    ∧ (ExecuteLoop cmEnv 5 CandidateQuery.zero 1 = some (.error ("boom"))) := by
  constructor
  · exact (execute_continues_on_cache_miss cmEnv 4 CandidateQuery.zero CandidateQuery.zero 0 1
      [CandidateQuery.zero] ("boom") rfl rfl (by decide)).1 rfl
  · exact (execute_continues_on_cache_miss cmEnv 4 CandidateQuery.zero CandidateQuery.zero 1 2
      [CandidateQuery.zero] ("boom") rfl rfl (by decide)).2 rfl

/-- Lookup after folding insertScore over a list of evaluators: the last
evaluator carrying the looked-up name wins, otherwise the accumulator
answers. -/
theorem foldl_insertScore_lookup (rs : ResultList) (q : TrecQrels) (l : List Evaluator) :
    ∀ (acc : ScoreMap) (n : String),
      (l.foldl (fun scores e => insertScore scores e.Name (e.Score rs q)) acc) n
        = match l.reverse.find? (fun e => n == e.Name) with
          | some e => some (e.Score rs q)
          | none => acc n := by
  induction l with
  | nil =>
    intro acc n
    rfl
  | cons e l ih =>
    intro acc n
    rw [List.foldl_cons, ih, List.reverse_cons, List.find?_append]
    cases hf : l.reverse.find? (fun e' => n == e'.Name) with
    | some e' => simp
    | none =>
      by_cases hn : n = e.Name
      · subst hn
        simp [List.find?, insertScore]
      · rw [List.find?]
        rw [show (n == e.Name) = false from beq_eq_false_iff_ne.mpr hn]
        simp [insertScore, hn]

/-- C6: with an empty retrieved result list, Evaluate does not
short-circuit or fail: the returned score map has an entry exactly for
each evaluator name, and — when evaluator names are distinct, as in the
registry — the entry of every evaluator is its score computed on an
explicit empty result list against the topic's judgments. -/
theorem evaluate_empty_results_scores_all (evaluators : List Evaluator)
    (qrels : QrelsFile) (topic : String) :
    (∀ n : String, (Evaluate evaluators ([] : ResultList) qrels topic n).isSome
        ↔ n ∈ evaluators.map Evaluator.Name)
    ∧ ((evaluators.map Evaluator.Name).Nodup →
        ∀ e ∈ evaluators,
          Evaluate evaluators ([] : ResultList) qrels topic e.Name
            = some (e.Score ([] : ResultList) (qrels.Qrels topic))) := by
  have key : ∀ n, Evaluate evaluators ([] : ResultList) qrels topic n
      = match evaluators.reverse.find? (fun e => n == e.Name) with
        | some e => some (e.Score ([] : ResultList) (qrels.Qrels topic))
        | none => none := by
    intro n
    have h := foldl_insertScore_lookup ([] : ResultList) (qrels.Qrels topic)
      evaluators emptyScores n
    simpa [Evaluate, emptyScores] using h
  constructor
  · intro n
    rw [key n]
    cases hf : evaluators.reverse.find? (fun e => n == e.Name) with
    | some e =>
      simp only [Option.isSome_some, true_iff]
      have hmem := List.mem_of_find?_eq_some hf
      have hbeq := List.find?_some hf
      have hp : n = e.Name := eq_of_beq hbeq
      rw [List.mem_reverse] at hmem
      exact List.mem_map.mpr ⟨e, hmem, hp.symm⟩
    | none =>
      simp only [Option.isSome_none, Bool.false_eq_true, false_iff]
      intro hmem
      obtain ⟨e, he, hname⟩ := List.mem_map.mp hmem
      have hsome : (evaluators.reverse.find? (fun e => n == e.Name)).isSome := by
        rw [List.find?_isSome]
        exact ⟨e, List.mem_reverse.mpr he, beq_iff_eq.mpr hname.symm⟩
      rw [hf] at hsome
      simp at hsome
  · intro hnodup e he
    rw [key e.Name]
    cases hf : evaluators.reverse.find? (fun e' => e.Name == e'.Name) with
    | none =>
      exfalso
      have hsome : (evaluators.reverse.find? (fun e' => e.Name == e'.Name)).isSome := by
        rw [List.find?_isSome]
        exact ⟨e, List.mem_reverse.mpr he, beq_iff_eq.mpr rfl⟩
      rw [hf] at hsome
      simp at hsome
    | some e' =>
      have hmem' := List.mem_reverse.mp (List.mem_of_find?_eq_some hf)
      have hbeq' := List.find?_some hf
      have hname : e.Name = e'.Name := eq_of_beq hbeq'
      have hee : e = e' :=
        List.inj_on_of_nodup_map hnodup he hmem' hname
      rw [← hee]

/-- Witness for C6: the count-style metric on an empty retrieved list
scores zero and its entry is present in the map. -/
theorem evaluate_empty_results_scores_all_witness :
    Evaluate [NumRet, NumRelRet] ([] : ResultList) ⟨fun _ => [⟨("d"), 1⟩]⟩ ("t") NumRelRet.Name
      = some 0 := by
  have h := (evaluate_empty_results_scores_all [NumRet, NumRelRet]
      ⟨fun _ => [⟨("d"), 1⟩]⟩ ("t")).2
    (by decide) NumRelRet (List.mem_cons_of_mem _ (List.mem_cons_self _ _))
  simpa [NumRelRet] using h

/-- Statistics source used for the C5 theorems: resolving any query
whose root atom targets the field named bad fails with a retrieval
error, every other query retrieves the single relevant document. -/
def c5Resolver : Resolver := fun q s =>
  match q.Query with
  | .atom _ f => if f = "bad" then .error ("boom") else .ok (["d1"], s)
  | _ => .ok (["d1"], s)

/-- Post-seeding selector state used for the C5 theorems. -/
def c5State : OracleQueryChainCandidateSelector :=
  { depth := 1, minResults := 1, bestRelRet := 1, prevRelRet := 1,
    bestRet := 10, prevRet := 10, qrels := ⟨fun _ => [⟨("d1"), 1⟩]⟩, seen := some [] }

/-- Current query used for the C5 theorems. -/
def c5Query : TransformedQuery :=
  NewTransformedQuery (NewPipelineQuery ("n") ("t") (.atom [] ("seed")))

/-- Transformation used in the C5 counterexample: its first candidate
fails to resolve, its second would be accepted. -/
def c5Transformation : Transformation :=
  { Name := "t",
    Apply := fun _ => .ok [⟨.atom [] ("bad")⟩, ⟨.atom [] ("good")⟩] }

/-- C5 counterexample: with a generation whose first candidate hits a
backend failure and whose second sibling would improve the best scores,
Select terminates with that retrieval error and leaves the query
unchanged — the failing candidate is not skipped, the batch is
aborted. -/
theorem select_aborts_on_candidate_retrieval_error :
    ((c5State.Select c5Resolver c5Query [c5Transformation]).2.2 = some ("boom"))
    ∧ ((c5State.Select c5Resolver c5Query [c5Transformation]).1 = c5Query) := by
  exact ⟨rfl, rfl⟩

/-- Freezing lemma behind the amended C5 claim: once the inner loop has
produced an error on the prefix ending at a candidate, appending further
sibling candidates does not change the outcome at all. -/
theorem selectApplied_error_freezes (resolve : Resolver) (xs : List AppliedQuery) :
    ∀ (query : TransformedQuery) (oc : OracleQueryChainCandidateSelector) (b1 b2 : ℚ)
      (c : AppliedQuery) (ys : List AppliedQuery) (e : String),
      (selectApplied resolve query oc b1 b2 (xs ++ [c])).2.2.2.2 = some e →
      selectApplied resolve query oc b1 b2 (xs ++ c :: ys)
        = selectApplied resolve query oc b1 b2 (xs ++ [c]) := by
  induction xs with
  | nil =>
    intro query oc b1 b2 c ys e herr
    rw [List.nil_append] at herr ⊢
    rw [List.nil_append]
    cases h : resolve (NewPipelineQuery query.PipelineQuery.Name query.PipelineQuery.Topic c.Query)
        (oc.seen.getD []) with
    | error e' =>
      simp only [selectApplied, h]
    | ok rs =>
      obtain ⟨results, seen⟩ := rs
      exfalso
      simp only [selectApplied, h] at herr
      split at herr <;> simp [selectApplied] at herr
  | cons x xs ih =>
    intro query oc b1 b2 c ys e herr
    rw [List.cons_append] at herr ⊢
    rw [List.cons_append]
    cases h : resolve (NewPipelineQuery query.PipelineQuery.Name query.PipelineQuery.Topic x.Query)
        (oc.seen.getD []) with
    | error e' =>
      simp only [selectApplied, h]
    | ok rs =>
      obtain ⟨results, seen⟩ := rs
      simp only [selectApplied, h] at herr ⊢
      split at herr
      case isTrue hcond =>
        rw [if_pos hcond, if_pos hcond]
        exact ih _ _ _ _ c ys e herr
      case isFalse hcond =>
        rw [if_neg hcond, if_neg hcond]
        exact ih _ _ _ _ c ys e herr

/-- C5 (amended): a Statistics Source failure while resolving one
candidate's logical tree aborts the whole batch: the inner loop's result
is frozen at the failing candidate — the remaining siblings of the
generation are never evaluated — and Select surfaces exactly that
retrieval error. -/
theorem selectApplied_retrieval_error_aborts (resolve : Resolver) (xs : List AppliedQuery)
    (query : TransformedQuery) (oc : OracleQueryChainCandidateSelector) (b1 b2 : ℚ)
    (c : AppliedQuery) (ys : List AppliedQuery) (e : String)
    (herr : (selectApplied resolve query oc b1 b2 (xs ++ [c])).2.2.2.2 = some e) :
    selectApplied resolve query oc b1 b2 (xs ++ c :: ys)
      = selectApplied resolve query oc b1 b2 (xs ++ [c])
    ∧ (selectApplied resolve query oc b1 b2 (xs ++ c :: ys)).2.2.2.2 = some e := by
  have hfreeze := selectApplied_error_freezes resolve xs query oc b1 b2 c ys e herr
  exact ⟨hfreeze, by rw [hfreeze]; exact herr⟩

/-- Witness for the amended C5 theorem: the failing candidate is first
in its generation; with or without the trailing sibling, the loop's
outcome is the same aborted result. -/
theorem selectApplied_retrieval_error_aborts_witness :
    (selectApplied c5Resolver c5Query c5State 1 10
        ([] ++ AppliedQuery.mk (.atom [] ("bad")) :: [⟨.atom [] ("good")⟩])
      = selectApplied c5Resolver c5Query c5State 1 10 ([] ++ [⟨.atom [] ("bad")⟩]))
    ∧ (selectApplied c5Resolver c5Query c5State 1 10
        ([] ++ AppliedQuery.mk (.atom [] ("bad")) :: [⟨.atom [] ("good")⟩])).2.2.2.2
      = some ("boom") := by
  exact selectApplied_retrieval_error_aborts c5Resolver [] c5Query c5State 1 10
    ⟨.atom [] ("bad")⟩ [⟨.atom [] ("good")⟩] ("boom") rfl

/-- Scores of one candidate rewrite exactly as Select computes them
under a deterministic statistics source whose per-query result list is
given by `f`: eval.Evaluate over the resolved results, reading the
NumRelRet and NumRet entries of the returned map. -/
def candScores (f : PipelineQuery → ResultList) (qrels : QrelsFile) (nm tp : String)
    (a : AppliedQuery) : ℚ × ℚ :=
  let results := f (NewPipelineQuery nm tp a.Query)
  let evaluation := Evaluate [NumRet, NumRelRet] results qrels tp
  (readScore evaluation NumRelRet.Name, readScore evaluation NumRet.Name)

/-- Acceptance test of the oracle selector, word for word from the
source condition: the candidate retrieves at least one relevant
document, keeps at least the best relevant-retrieved count, and does not
enlarge the result set. -/
def acceptCand (best c : ℚ × ℚ) : Prop :=
  c.1 > 0 ∧ c.1 ≥ best.1 ∧ c.2 ≤ best.2

instance (best c : ℚ × ℚ) : Decidable (acceptCand best c) := by
  unfold acceptCand
  infer_instance

/-- Greedy running best over a list of candidate scores: each candidate
is tested against the best of the prefix before it and replaces both
values on acceptance. -/
def runningBest (best : ℚ × ℚ) (cs : List (ℚ × ℚ)) : ℚ × ℚ :=
  cs.foldl (fun b c => if acceptCand b c then c else b) best

/-- Reference semantics of one Select round: fold the greedy acceptance
over the candidates, appending each accepted candidate to the
transformed query's lineage. -/
def runAccept (nm tp : String) (sc : AppliedQuery → ℚ × ℚ) :
    TransformedQuery → ℚ × ℚ → List AppliedQuery → TransformedQuery × (ℚ × ℚ)
  | q, b, [] => (q, b)
  | q, b, a :: as =>
    if acceptCand b (sc a) then
      runAccept nm tp sc (q.Append (NewPipelineQuery nm tp a.Query)) (sc a) as
    else
      runAccept nm tp sc q b as

/-- Splitting lemma for the reference semantics. -/
theorem runAccept_append (nm tp : String) (sc : AppliedQuery → ℚ × ℚ)
    (xs ys : List AppliedQuery) :
    ∀ (q : TransformedQuery) (b : ℚ × ℚ),
      runAccept nm tp sc q b (xs ++ ys)
        = runAccept nm tp sc (runAccept nm tp sc q b xs).1 (runAccept nm tp sc q b xs).2 ys := by
  induction xs with
  | nil =>
    intro q b
    rfl
  | cons a as ih =>
    intro q b
    simp only [List.cons_append, runAccept]
    by_cases h : acceptCand b (sc a)
    · simp only [if_pos h]
      exact ih _ _
    · simp only [if_neg h]
      exact ih _ _

/-- The best pair of the reference semantics is the greedy running best
of the candidate scores. -/
theorem runAccept_best (nm tp : String) (sc : AppliedQuery → ℚ × ℚ)
    (as : List AppliedQuery) :
    ∀ (q : TransformedQuery) (b : ℚ × ℚ),
      (runAccept nm tp sc q b as).2 = runningBest b (as.map sc) := by
  induction as with
  | nil =>
    intro q b
    rfl
  | cons a as ih =>
    intro q b
    simp only [runAccept, runningBest, List.map_cons, List.foldl_cons]
    by_cases h : acceptCand b (sc a)
    · simp only [if_pos h]
      exact ih _ _
    · simp only [if_neg h]
      exact ih _ _

/-- Refinement of the inner Select loop to the reference semantics:
under a deterministic statistics source the loop cannot fail, its
transformed query and running best values are those of the greedy fold,
and the judgments travel through unchanged. -/
theorem selectApplied_det_spec (resolve : Resolver) (f : PipelineQuery → ResultList)
    (hdet : ∀ q s, ∃ s', resolve q s = .ok (f q, s'))
    (qrels : QrelsFile) (nm tp : String) (as : List AppliedQuery) :
    ∀ (query : TransformedQuery) (oc : OracleQueryChainCandidateSelector) (b1 b2 : ℚ),
      oc.qrels = qrels → query.PipelineQuery.Name = nm → query.PipelineQuery.Topic = tp →
      ∃ oc',
        selectApplied resolve query oc b1 b2 as
          = ((runAccept nm tp (candScores f qrels nm tp) query (b1, b2) as).1, oc',
             (runAccept nm tp (candScores f qrels nm tp) query (b1, b2) as).2.1,
             (runAccept nm tp (candScores f qrels nm tp) query (b1, b2) as).2.2, none)
        ∧ oc'.qrels = qrels := by
  induction as with
  | nil =>
    intro query oc b1 b2 hq hn ht
    exact ⟨oc, rfl, hq⟩
  | cons a as ih =>
    intro query oc b1 b2 hq hn ht
    obtain ⟨s', hs⟩ := hdet
      (NewPipelineQuery query.PipelineQuery.Name query.PipelineQuery.Topic a.Query)
      (oc.seen.getD [])
    simp only [selectApplied, hs]
    rw [hn, ht, hq]
    simp only [runAccept]
    split
    case isTrue hacc =>
      rw [if_pos (show acceptCand (b1, b2) (candScores f qrels nm tp a) from hacc)]
      exact ih (query.Append (NewPipelineQuery nm tp a.Query)) _ _ _ rfl rfl rfl
    case isFalse hacc =>
      rw [if_neg (show ¬ acceptCand (b1, b2) (candScores f qrels nm tp a) from hacc)]
      exact ih query _ _ _ rfl hn ht

/-- C2: within one Select round under a deterministic statistics source,
the loop's running best is the greedy fold of the candidate scores, and
a candidate is accepted as the new running best iff it passes the Pareto
test — NumRelRet at least the best relevant-retrieved count, NumRet at
most the best retrieved count, NumRelRet positive — taken against the
best as updated by the candidates processed before it in the same round
(not the round's starting best); on acceptance the candidate joins the
query lineage and both running-best values become its scores, otherwise
query and running best are unchanged. -/
theorem oracle_select_accepts_pareto_iff (resolve : Resolver) (f : PipelineQuery → ResultList)
    (hdet : ∀ q s, ∃ s', resolve q s = .ok (f q, s'))
    (qrels : QrelsFile) (query : TransformedQuery)
    (oc : OracleQueryChainCandidateSelector) (b1 b2 : ℚ)
    (hq : oc.qrels = qrels) (xs : List AppliedQuery) (c : AppliedQuery) :
    (((selectApplied resolve query oc b1 b2 xs).2.2.1,
        (selectApplied resolve query oc b1 b2 xs).2.2.2.1)
      = runningBest (b1, b2)
          (xs.map (candScores f qrels query.PipelineQuery.Name query.PipelineQuery.Topic)))
    ∧ (acceptCand
          (runningBest (b1, b2)
            (xs.map (candScores f qrels query.PipelineQuery.Name query.PipelineQuery.Topic)))
          (candScores f qrels query.PipelineQuery.Name query.PipelineQuery.Topic c) →
        (selectApplied resolve query oc b1 b2 (xs ++ [c])).1
          = ((selectApplied resolve query oc b1 b2 xs).1).Append
              (NewPipelineQuery query.PipelineQuery.Name query.PipelineQuery.Topic c.Query)
        ∧ ((selectApplied resolve query oc b1 b2 (xs ++ [c])).2.2.1,
            (selectApplied resolve query oc b1 b2 (xs ++ [c])).2.2.2.1)
          = candScores f qrels query.PipelineQuery.Name query.PipelineQuery.Topic c)
    ∧ (¬ acceptCand
          (runningBest (b1, b2)
            (xs.map (candScores f qrels query.PipelineQuery.Name query.PipelineQuery.Topic)))
          (candScores f qrels query.PipelineQuery.Name query.PipelineQuery.Topic c) →
        (selectApplied resolve query oc b1 b2 (xs ++ [c])).1
          = (selectApplied resolve query oc b1 b2 xs).1
        ∧ ((selectApplied resolve query oc b1 b2 (xs ++ [c])).2.2.1,
            (selectApplied resolve query oc b1 b2 (xs ++ [c])).2.2.2.1)
          = runningBest (b1, b2)
              (xs.map (candScores f qrels query.PipelineQuery.Name query.PipelineQuery.Topic))) := by
  obtain ⟨oc1, h1, _⟩ := selectApplied_det_spec resolve f hdet qrels
    query.PipelineQuery.Name query.PipelineQuery.Topic xs query oc b1 b2 hq rfl rfl
  obtain ⟨oc2, h2, _⟩ := selectApplied_det_spec resolve f hdet qrels
    query.PipelineQuery.Name query.PipelineQuery.Topic (xs ++ [c]) query oc b1 b2 hq rfl rfl
  have happ := runAccept_append query.PipelineQuery.Name query.PipelineQuery.Topic
    (candScores f qrels query.PipelineQuery.Name query.PipelineQuery.Topic) xs [c] query (b1, b2)
  have hbest := runAccept_best query.PipelineQuery.Name query.PipelineQuery.Topic
    (candScores f qrels query.PipelineQuery.Name query.PipelineQuery.Topic) xs query (b1, b2)
  refine ⟨?_, ?_, ?_⟩
  · rw [h1]
    dsimp only
    rw [← hbest]
  · intro hacc
    have hacc' : acceptCand
        (runAccept query.PipelineQuery.Name query.PipelineQuery.Topic
          (candScores f qrels query.PipelineQuery.Name query.PipelineQuery.Topic)
          query (b1, b2) xs).2
        (candScores f qrels query.PipelineQuery.Name query.PipelineQuery.Topic c) := by
      rw [hbest]
      exact hacc
    have hr2 : runAccept query.PipelineQuery.Name query.PipelineQuery.Topic
        (candScores f qrels query.PipelineQuery.Name query.PipelineQuery.Topic)
        query (b1, b2) (xs ++ [c])
        = ((runAccept query.PipelineQuery.Name query.PipelineQuery.Topic
            (candScores f qrels query.PipelineQuery.Name query.PipelineQuery.Topic)
            query (b1, b2) xs).1.Append
              (NewPipelineQuery query.PipelineQuery.Name query.PipelineQuery.Topic c.Query),
           candScores f qrels query.PipelineQuery.Name query.PipelineQuery.Topic c) := by
      rw [happ]
      simp only [runAccept]
      rw [if_pos hacc']
    constructor
    · rw [h1, h2]
      dsimp only
      rw [hr2]
    · rw [h2]
      dsimp only
      rw [hr2]
  · intro hacc
    have hacc' : ¬ acceptCand
        (runAccept query.PipelineQuery.Name query.PipelineQuery.Topic
          (candScores f qrels query.PipelineQuery.Name query.PipelineQuery.Topic)
          query (b1, b2) xs).2
        (candScores f qrels query.PipelineQuery.Name query.PipelineQuery.Topic c) := by
      rw [hbest]
      exact hacc
    have hr2 : runAccept query.PipelineQuery.Name query.PipelineQuery.Topic
        (candScores f qrels query.PipelineQuery.Name query.PipelineQuery.Topic)
        query (b1, b2) (xs ++ [c])
        = runAccept query.PipelineQuery.Name query.PipelineQuery.Topic
            (candScores f qrels query.PipelineQuery.Name query.PipelineQuery.Topic)
            query (b1, b2) xs := by
      rw [happ]
      simp only [runAccept]
      rw [if_neg hacc']
    constructor
    · rw [h1, h2]
      dsimp only
      rw [hr2]
    · rw [h2]
      dsimp only
      rw [hr2, ← hbest]

/-- Deterministic result lists for the C2 witness: the candidate on
field x retrieves two relevant documents, the candidate on field good
retrieves one relevant and one unjudged document. -/
def c2f : PipelineQuery → ResultList := fun q =>
  match q.Query with
  | .atom _ fl =>
    if fl = "x" then ["d1", "d2"] else if fl = "good" then ["d1", "d3"] else ["d1"]
  | _ => ["d1"]

/-- Statistics source for the C2 witness, deterministic by
construction. -/
def c2Resolver : Resolver := fun q s => .ok (c2f q, s)

/-- Judgments for the C2 witness: two relevant documents. -/
def c2Qrels : QrelsFile := ⟨fun _ => [⟨("d1"), 1⟩, ⟨("d2"), 1⟩]⟩

/-- Current query for the C2 witness. -/
def c2Query : TransformedQuery :=
  NewTransformedQuery (NewPipelineQuery ("n") ("t") (.atom [] ("seed")))

/-- Selector state for the C2 witness. -/
def c2State : OracleQueryChainCandidateSelector :=
  { depth := 1, minResults := 1, bestRelRet := 1, prevRelRet := 1,
    bestRet := 3, prevRet := 3, qrels := c2Qrels, seen := some [] }

/-- First candidate of the C2 witness round (scores (2, 2), accepted
against the starting best (1, 3)). -/
def c2X : AppliedQuery := ⟨.atom [] ("x")⟩

/-- Second candidate of the C2 witness round (scores (1, 2): acceptable
against the round's starting best (1, 3) but rejected against the
updated best (2, 2), exhibiting the order-sensitive greedy rule). -/
def c2C : AppliedQuery := ⟨.atom [] ("good")⟩

/-- Witness for C2: after the first candidate is accepted the running
best is its scores, and the second candidate — which the round's
starting best would have admitted — is rejected against the updated
best, leaving the query unchanged. -/
theorem oracle_select_accepts_pareto_iff_witness :
    (((selectApplied c2Resolver c2Query c2State 1 3 [c2X]).2.2.1,
        (selectApplied c2Resolver c2Query c2State 1 3 [c2X]).2.2.2.1)
      = runningBest (1, 3)
          ([c2X].map (candScores c2f c2Qrels c2Query.PipelineQuery.Name
            c2Query.PipelineQuery.Topic)))
    ∧ ((selectApplied c2Resolver c2Query c2State 1 3 ([c2X] ++ [c2C])).1
        = (selectApplied c2Resolver c2Query c2State 1 3 [c2X]).1) := by
  have h := oracle_select_accepts_pareto_iff c2Resolver c2f (fun q s => ⟨s, rfl⟩) c2Qrels
    c2Query c2State 1 3 rfl [c2X] c2C
  exact ⟨h.1, (h.2.2 (by decide)).1⟩

/-- Sequential block write into the pre-sized ranks slice, mirroring the
per-line assignments of the getRanking scan. -/
def setSeq : List Ranking → Nat → List Ranking → List Ranking
  | ranks, _, [] => ranks
  | ranks, i, v :: vs => setSeq (ranks.set i v) (i + 1) vs

/-- The scanning loop across a fully parseable prefix: it performs the
block write for the prefix and continues on the remaining lines with the
advanced ordinal. -/
theorem getRankingLoop_split (parseFloat : String → Except String ℚ)
    (candidates : List CandidateQuery) (lines1 : List String) (scores1 : List ℚ)
    (hps : List.Forall₂ (fun l r => parseFloat l = .ok r) lines1 scores1) :
    ∀ (lines2 : List String) (i : Nat) (ranks : List Ranking),
      i + lines1.length ≤ candidates.length →
      getRankingLoop parseFloat candidates (lines1 ++ lines2) i ranks
        = getRankingLoop parseFloat candidates lines2 (i + lines1.length)
            (setSeq ranks i (List.zipWith Ranking.mk scores1 (candidates.drop i))) := by
  induction hps with
  | nil =>
    intro lines2 i ranks hle
    simp [setSeq]
  | cons hlr htail ih =>
    intro lines2 i ranks hle
    rename_i l r lines1' scores1'
    have hi : i < candidates.length := by
      simp only [List.length_cons] at hle
      omega
    rw [List.cons_append]
    simp only [getRankingLoop, hlr]
    rw [dif_pos hi]
    rw [ih lines2 (i + 1) (ranks.set i ⟨r, candidates.get ⟨i, hi⟩⟩)
      (by simp only [List.length_cons] at hle; omega)]
    rw [List.drop_eq_getElem_cons hi]
    simp only [List.zipWith_cons_cons, setSeq, List.length_cons]
    congr 1
    omega

/-- Length is preserved by the block write. -/
theorem setSeq_length (vs : List Ranking) :
    ∀ (ranks : List Ranking) (i : Nat), (setSeq ranks i vs).length = ranks.length := by
  induction vs with
  | nil =>
    intro ranks i
    rfl
  | cons v vs ih =>
    intro ranks i
    rw [setSeq, ih, List.length_set]

/-- Pointwise description of the block write: inside the written window
the value comes from the block, outside it from the original slice. -/
theorem setSeq_getElem? (vs : List Ranking) :
    ∀ (ranks : List Ranking) (i : Nat), i + vs.length ≤ ranks.length →
      ∀ j, (setSeq ranks i vs)[j]?
        = if i ≤ j ∧ j < i + vs.length then vs[j - i]? else ranks[j]? := by
  induction vs with
  | nil =>
    intro ranks i hle j
    have hcond : ¬ (i ≤ j ∧ j < i + ([] : List Ranking).length) := by
      simp only [List.length_nil]
      omega
    rw [setSeq, if_neg hcond]
  | cons v vs ih =>
    intro ranks i hle j
    simp only [List.length_cons] at hle
    rw [setSeq, ih (ranks.set i v) (i + 1) (by rw [List.length_set]; omega) j]
    simp only [List.length_cons]
    by_cases h1 : i + 1 ≤ j ∧ j < i + 1 + vs.length
    · rw [if_pos h1, if_pos (by omega)]
      have hj : j - i = (j - (i + 1)) + 1 := by omega
      rw [hj, List.getElem?_cons_succ]
    · rw [if_neg h1, List.getElem?_set]
      by_cases h2 : i = j
      · subst h2
        rw [if_pos rfl, if_pos (by omega), if_pos (by omega)]
        have h0 : i - i = 0 := by omega
        rw [h0, List.getElem?_cons_zero]
      · rw [if_neg h2, if_neg (by omega)]

/-- A member of a zipWith of two lists is the image of a common
ordinal. -/
theorem mem_zipWith_rank (scores : List ℚ) :
    ∀ (cs : List CandidateQuery) (x : Ranking),
      x ∈ List.zipWith Ranking.mk scores cs →
      ∃ i, ∃ h1 : i < scores.length, ∃ h2 : i < cs.length,
        x = ⟨scores.get ⟨i, h1⟩, cs.get ⟨i, h2⟩⟩ := by
  induction scores with
  | nil =>
    intro cs x hx
    simp at hx
  | cons s scores ih =>
    intro cs x hx
    cases cs with
    | nil => simp at hx
    | cons c cs =>
      rw [List.zipWith_cons_cons, List.mem_cons] at hx
      cases hx with
      | inl h =>
        exact ⟨0, by simp, by simp, h⟩
      | inr h =>
        obtain ⟨i, h1, h2, hx⟩ := ih cs x h
        exact ⟨i + 1, by simpa using h1, by simpa using h2, hx⟩

/-- Head of the descending sort used by getRanking: it is a member of
the list and its rank bounds every member's rank. -/
theorem sortDesc_head (l : List Ranking) (hne : l ≠ []) :
    (l.mergeSort (fun a b => decide (b.rank ≤ a.rank))).headD ⟨0, CandidateQuery.zero⟩ ∈ l
    ∧ ∀ y ∈ l,
        y.rank ≤ ((l.mergeSort (fun a b => decide (b.rank ≤ a.rank))).headD
          ⟨0, CandidateQuery.zero⟩).rank := by
  have hperm := List.mergeSort_perm l (fun a b => decide (b.rank ≤ a.rank))
  have hsorted : (l.mergeSort (fun a b => decide (b.rank ≤ a.rank))).Pairwise
      (fun a b => decide (b.rank ≤ a.rank) = true) := by
    apply List.sorted_mergeSort
    · intro a b c hab hbc
      exact decide_eq_true (le_trans (of_decide_eq_true hbc) (of_decide_eq_true hab))
    · intro a b
      rcases le_total b.rank a.rank with h | h <;> simp [h]
  cases hs : l.mergeSort (fun a b => decide (b.rank ≤ a.rank)) with
  | nil =>
    exfalso
    rw [hs] at hperm
    exact hne hperm.symm.eq_nil
  | cons h t =>
    rw [hs] at hperm hsorted
    simp only [List.headD_cons]
    constructor
    · exact hperm.mem_iff.mp (List.mem_cons_self h t)
    · intro y hy
      have hy' : y ∈ h :: t := hperm.mem_iff.mpr hy
      rw [List.mem_cons] at hy'
      cases hy' with
      | inl hyh =>
        rw [hyh]
      | inr hyt =>
        have := (List.pairwise_cons.mp hsorted).1 y hyt
        exact of_decide_eq_true this

/-- C7: getRanking consumes one float score per line, line j aligned
with candidate j of the list passed in.  When every line parses and the
file has exactly one line per candidate, it returns, without error, a
candidate whose score is the maximum of all line scores; the first
non-numeric line instead aborts the selection step with that parse error
and no candidate. -/
theorem getRanking_picks_max (parseFloat : String → Except String ℚ)
    (candidates : List CandidateQuery) :
    (∀ (lines : List String) (scores : List ℚ),
        candidates ≠ [] →
        List.Forall₂ (fun l r => parseFloat l = .ok r) lines scores →
        lines.length = candidates.length →
        ∃ i, ∃ h1 : i < scores.length, ∃ h2 : i < candidates.length,
          getRanking parseFloat (.ok lines) candidates = (candidates.get ⟨i, h2⟩, none)
          ∧ ∀ j (hj : j < scores.length), scores.get ⟨j, hj⟩ ≤ scores.get ⟨i, h1⟩)
    ∧ (∀ (good : List String) (scoresG : List ℚ) (bad : String)
        (rest : List String) (e : String),
        candidates ≠ [] →
        List.Forall₂ (fun l r => parseFloat l = .ok r) good scoresG →
        good.length ≤ candidates.length →
        parseFloat bad = .error e →
        getRanking parseFloat (.ok (good ++ bad :: rest)) candidates
          = (CandidateQuery.zero, some e)) := by
  constructor
  · intro lines scores hne hps hlen
    have hc0 : ¬ (candidates.length = 0) := fun h => hne (List.length_eq_zero.mp h)
    have hslen : scores.length = candidates.length := by
      rw [← hps.length_eq]
      exact hlen
    have hzl : (List.zipWith Ranking.mk scores candidates).length = candidates.length := by
      rw [List.length_zipWith, hslen, Nat.min_self]
    have hloop := getRankingLoop_split parseFloat candidates lines scores hps [] 0
      (List.replicate candidates.length ⟨0, CandidateQuery.zero⟩) (by omega)
    rw [List.append_nil, List.drop_zero] at hloop
    have hranks : setSeq (List.replicate candidates.length ⟨0, CandidateQuery.zero⟩) 0
        (List.zipWith Ranking.mk scores candidates)
        = List.zipWith Ranking.mk scores candidates := by
      apply List.ext_getElem?
      intro j
      rw [setSeq_getElem? _ _ 0 (by rw [List.length_replicate]; omega) j]
      by_cases hj : j < candidates.length
      · rw [if_pos (by omega), Nat.sub_zero]
      · rw [if_neg (by omega), List.getElem?_eq_none (by rw [List.length_replicate]; omega),
          List.getElem?_eq_none (by omega)]
    have hfull : getRankingLoop parseFloat candidates lines 0
        (List.replicate candidates.length ⟨0, CandidateQuery.zero⟩)
        = .ok (List.zipWith Ranking.mk scores candidates) := by
      rw [hloop, hranks]
      rfl
    have hznil : List.zipWith Ranking.mk scores candidates ≠ [] := by
      intro h
      rw [h] at hzl
      exact hc0 hzl.symm
    obtain ⟨hheadmem, hheadmax⟩ := sortDesc_head (List.zipWith Ranking.mk scores candidates) hznil
    obtain ⟨i, h1, h2, hx⟩ := mem_zipWith_rank scores candidates _ hheadmem
    have hget : getRanking parseFloat (.ok lines) candidates
        = ((((List.zipWith Ranking.mk scores candidates).mergeSort
            (fun a b => decide (b.rank ≤ a.rank))).headD ⟨0, CandidateQuery.zero⟩).query,
           none) := by
      simp only [getRanking]
      rw [if_neg hc0]
      rw [hfull]
      dsimp only
      rw [if_neg (by rw [List.length_mergeSort]; omega)]
    refine ⟨i, h1, h2, ?_, ?_⟩
    · rw [hget, hx]
    · intro j hj
      have hjz : j < (List.zipWith Ranking.mk scores candidates).length := by omega
      have hmemj : (⟨scores.get ⟨j, hj⟩, candidates.get ⟨j, by omega⟩⟩ : Ranking)
          ∈ List.zipWith Ranking.mk scores candidates := by
        have := List.getElem_mem hjz
        rw [List.getElem_zipWith] at this
        exact this
      have hb := hheadmax _ hmemj
      rw [hx] at hb
      exact hb
  · intro good scoresG bad rest e hne hps hlen hbad
    have hc0 : ¬ (candidates.length = 0) := fun h => hne (List.length_eq_zero.mp h)
    have hloop := getRankingLoop_split parseFloat candidates good scoresG hps (bad :: rest) 0
      (List.replicate candidates.length ⟨0, CandidateQuery.zero⟩) (by omega)
    simp only [getRanking]
    rw [if_neg hc0]
    rw [hloop]
    simp only [getRankingLoop, hbad]

/-- Score-file parser used for the C7 witness (a fixed table standing
for strconv.ParseFloat). -/
def c7Parse : String → Except String ℚ := fun s =>
  if s = "1" then .ok 1 else if s = "2" then .ok 2 else .error ("bad syntax")

/-- First candidate of the C7 witness. -/
def c7A : CandidateQuery := NewCandidateQuery default ("A") []

/-- Second candidate of the C7 witness. -/
def c7B : CandidateQuery := NewCandidateQuery default ("B") []

/-- Witness for C7 at a two-candidate list: an aligned two-line score
file selects a maximum-score candidate, and a file whose second line is
non-numeric yields that parse error and no candidate. -/
theorem getRanking_picks_max_witness :
    (∃ i, ∃ h1 : i < ([1, 2] : List ℚ).length, ∃ h2 : i < [c7A, c7B].length,
      getRanking c7Parse (.ok [("1"), ("2")]) [c7A, c7B] = ([c7A, c7B].get ⟨i, h2⟩, none)
      ∧ ∀ j (hj : j < ([1, 2] : List ℚ).length),
          ([1, 2] : List ℚ).get ⟨j, hj⟩ ≤ ([1, 2] : List ℚ).get ⟨i, h1⟩)
    ∧ getRanking c7Parse (.ok [("1"), ("x"), ("2")]) [c7A, c7B]
        = (CandidateQuery.zero, some ("bad syntax")) := by
  constructor
  · exact (getRanking_picks_max c7Parse [c7A, c7B]).1 [("1"), ("2")] [1, 2]
      (List.cons_ne_nil _ _)
      (List.Forall₂.cons rfl (List.Forall₂.cons rfl List.Forall₂.nil))
      rfl
  · exact (getRanking_picks_max c7Parse [c7A, c7B]).2 [("1")] [1] ("x") [("2")] ("bad syntax")
      (List.cons_ne_nil _ _)
      (List.Forall₂.cons rfl List.Forall₂.nil)
      (by decide)
      rfl

end Groove
